import Mathlib

/-!
Shallow embedding of the `topik` input-ingestion layer — the reader
generators of `topik/readers.py` and the source-dispatch resolver
`read_input` of `topik/fileio/reader.py` — together with theorems
checking the design specification's claims against it.

External collaborators are modelled as oracles, following the spec's
scoping (JSON parsing internals and the search stores' wire protocols
are external): a JSON-lines file is the list of its per-line parse
outcomes, an `ijson` parse is the list of `(prefix-path, event, value)`
triples it produces, and the Elasticsearch store is an oracle giving
the response to each query the code issues.
-/

namespace Topik

/-! ### JSON values

A JSON value as returned by the external parsers.  Objects are
association lists of fields (Python `dict`s, duck-typed keyed lookup).
The mutual presentation avoids nested inductives so that decidable
equality can be derived. -/

mutual

inductive Json where
  | null : Json
  | bool (b : Bool) : Json
  | num (n : Int) : Json
  | str (s : String) : Json
  | arr (elems : JsonList) : Json
  | obj (fields : JsonObj) : Json
deriving DecidableEq

inductive JsonList where
  | nil : JsonList
  | cons (hd : Json) (tl : JsonList) : JsonList
deriving DecidableEq

inductive JsonObj where
  | nil : JsonObj
  | cons (key : String) (val : Json) (tl : JsonObj) : JsonObj
deriving DecidableEq

end

/-- Keyed lookup in a JSON object: Python's `dict.get(key)`, returning
`None` when the key is absent. -/
def JsonObj.get? : JsonObj → String → Option Json
  | .nil, _ => none
  | .cons k v rest, key => if k = key then some v else rest.get? key

/-- Convenience constructor for object literals. -/
def jObj : List (String × Json) → Json
  | kvs => Json.obj (go kvs)
where
  go : List (String × Json) → JsonObj
    | [] => .nil
    | (k, v) :: rest => .cons k v (go rest)

/-! ### Decimal rendering

`iter_document_json_stream` builds identifiers with Python's `"%d" % n`,
embedded as `Nat.repr`.  The identifier-uniqueness claims need that this
decimal rendering is injective, which the library does not provide, so
we prove it here via a structural characterisation of `Nat.toDigits`. -/

/-- Decimal digit characters of `n`, most significant first (empty for 0). -/
def decChars (n : Nat) : List Char :=
  if h : n = 0 then []
  else decChars (n / 10) ++ [Nat.digitChar (n % 10)]
termination_by n
decreasing_by exact Nat.div_lt_self (Nat.pos_of_ne_zero h) (by decide)

/-! ### The JSON-lines reader (`iter_document_json_stream`)

The file is given as the list of per-line outcomes of `json.loads`:
`LineParse.ok j` when the line parses to the JSON value `j`, and
`LineParse.fail` when `json.loads` raises `ValueError`.  The generator
body is, per line `n`:

* parse failure: the `except ValueError` arm logs a warning and
  continues with the next line;
* a parsed object: `dictionary.get(field)` yields
  `("<filename>/<field>[<n>]", content)` with `content` possibly absent;
* a parsed non-object: `dictionary.get` raises `AttributeError`, which
  the `except ValueError` clause does not catch, so the generator dies
  and no further record or warning is produced. -/

inductive LineParse where
  | ok (j : Json) : LineParse
  | fail : LineParse
deriving DecidableEq

inductive TermStatus where
  | done : TermStatus
  | fatal : TermStatus
deriving DecidableEq

/-- Outcome of running a file-based reader to its end: the records it
yielded in order, the number of warnings it logged, and whether it
finished normally or died with an uncaught exception (records and
warnings produced before the death are kept). -/
structure StreamOut where
  records : List (String × Option Json)
  warnings : Nat
  status : TermStatus
deriving DecidableEq

/-- Identifier built by `iter_document_json_stream`:
`"%s/%s[%d]" % (filename, field, n)`. -/
def mkStreamId (filename fieldName : String) (n : Nat) : String :=
  filename ++ "/" ++ fieldName ++ "[" ++ Nat.repr n ++ "]"

/-- One pass of `iter_document_json_stream` over the lines of the file,
starting at line number `n` (the `enumerate` counter). -/
def jsonStreamFrom (filename fieldName : String) : Nat → List LineParse → StreamOut
  | _, [] => ⟨[], 0, .done⟩
  | n, .fail :: rest =>
    let o := jsonStreamFrom filename fieldName (n + 1) rest
    ⟨o.records, o.warnings + 1, o.status⟩
  | n, .ok (.obj fields) :: rest =>
    let o := jsonStreamFrom filename fieldName (n + 1) rest
    ⟨(mkStreamId filename fieldName n, fields.get? fieldName) :: o.records, o.warnings, o.status⟩
  | _, .ok _ :: _ => ⟨[], 0, .fatal⟩

/-- The JSON-lines reader `iter_document_json_stream(filename, field)`,
run over the whole file. -/
def iter_document_json_stream (filename fieldName : String) (file : List LineParse) : StreamOut :=
  jsonStreamFrom filename fieldName 0 file

/-! ### The large-JSON reader (`iter_large_json`) -/

/-- The large-JSON reader `iter_large_json(json_file, prefix_value,
event_value)`: the `ijson` parse of the file is the list of its
`(prefix-path, event, value)` triples; the reader yields
`("%s/%s" % (prefix, event), value)` for every triple whose prefix-path
and event equal the requested pair. -/
def iter_large_json (events : List (String × String × Json))
    (prefixValue eventValue : String) : List (String × Json) :=
  match events with
  | [] => []
  | (p, e, v) :: rest =>
    if p = prefixValue ∧ e = eventValue then
      (p ++ "/" ++ e, v) :: iter_large_json rest prefixValue eventValue
    else
      iter_large_json rest prefixValue eventValue

/-! ### The query readers (`iter_elastic_query`, `random_elastic_query`) -/

/-- A search hit: its `_id` and its `_source` document. -/
structure Hit where
  docId : String
  src : Json
deriving DecidableEq

/-- A store response to a search: the `_scroll_id` field (present or
absent) and the `hits.hits` page. -/
structure EsResponse where
  scrollId : Option String
  hits : List Hit
deriving DecidableEq

/-- Outcome of the Python subscription `j[key]`: `KeyError` when the key
is missing from an object, `TypeError` when the value is not
string-subscriptable. -/
inductive IndexRes where
  | found (v : Json) : IndexRes
  | keyError : IndexRes
  | typeError : IndexRes
deriving DecidableEq

def indexJson : Json → String → IndexRes
  | .obj fields, key =>
    match fields.get? key with
    | some v => .found v
    | none => .keyError
  | _, _ => .typeError

/-- The identifier component of a yielded query-reader tuple: `field`,
or `"%s/%s" % (field, subfield)` when a subfield is requested. -/
def elasticLabel (fieldName : String) : Option String → String
  | none => fieldName
  | some sub => fieldName ++ "/" ++ sub

/-- A tuple yielded by the query readers: the store-native id (prepended
only when `include_id` is set), the label, and the content. -/
abbrev ElTup := Option String × String × Json

inductive ExtractOut where
  | yielded (t : ElTup) : ExtractOut
  | skipped : ExtractOut
  | fatal : ExtractOut
deriving DecidableEq

/-- The per-hit body shared by `iter_elastic_query` and
`random_elastic_query`: build the tuple from `hit['_source']`; the
`except (ValueError, KeyError)` clause turns a missing field or subfield
into a skip (logged subject to the cap), while any other exception (for
instance the `TypeError` from subscripting a non-object value) is not
caught and kills the generator. -/
def extractHit (fieldName : String) (subfield : Option String) (includeId : Bool)
    (h : Hit) : ExtractOut :=
  let idPart : Option String := if includeId then some h.docId else none
  match subfield with
  | none =>
    match indexJson h.src fieldName with
    | .found v => .yielded (idPart, elasticLabel fieldName none, v)
    | .keyError => .skipped
    | .typeError => .fatal
  | some sub =>
    match indexJson h.src fieldName with
    | .found v =>
      match indexJson v sub with
      | .found w => .yielded (idPart, elasticLabel fieldName (some sub), w)
      | .keyError => .skipped
      | .typeError => .fatal
    | .keyError => .skipped
    | .typeError => .fatal

/-- Result of the `for hit in resp['hits']['hits']` loop: the tuples
yielded in order (up to an uncaught exception), the running
logged-failure counter (`error_prints`, incremented only below 10), and
whether the loop finished or died. -/
structure PageOut where
  tuples : List ElTup
  errorPrints : Nat
  status : TermStatus
deriving DecidableEq

def processHits (fieldName : String) (subfield : Option String) (includeId : Bool) :
    List Hit → Nat → PageOut
  | [], errs => ⟨[], errs, .done⟩
  | h :: rest, errs =>
    match extractHit fieldName subfield includeId h with
    | .yielded t =>
      let o := processHits fieldName subfield includeId rest errs
      ⟨t :: o.tuples, o.errorPrints, o.status⟩
    | .skipped =>
      processHits fieldName subfield includeId rest (if errs < 10 then errs + 1 else errs)
    | .fatal => ⟨[], errs, .fatal⟩

/-- The `while True` loop of `iter_elastic_query`, run with `fuel`
remaining rounds.  The loop body iterates over `resp['hits']['hits']`,
re-reads `resp.get('_scroll_id')` and breaks when the cursor is absent
or the page empty — but the code never issues a continuation request
(there is no `es.scroll` call), so `resp` stays the initial response
forever.  `none` means the fuel ran out with the loop still running. -/
def scrollLoop (fieldName : String) (subfield : Option String) (includeId : Bool)
    (resp : EsResponse) : Nat → Nat → Option PageOut
  | 0, _ => none
  | fuel + 1, errs =>
    let p := processHits fieldName subfield includeId resp.hits errs
    if p.status = .fatal then some p
    else if resp.scrollId = none ∨ resp.hits = [] then some p
    else
      match scrollLoop fieldName subfield includeId resp fuel p.errorPrints with
      | none => none
      | some q => some ⟨p.tuples ++ q.tuples, q.errorPrints, q.status⟩

/-- The full-scroll reader `iter_elastic_query`: `resp` is the store's
reply to the initial match-all search (issued with a `5m` scroll
window); if it carries no `_scroll_id` the generator returns at once,
otherwise it enters the loop above. -/
def iter_elastic_query (fieldName : String) (subfield : Option String)
    (includeId : Bool) (resp : EsResponse) (fuel : Nat) : Option PageOut :=
  match resp.scrollId with
  | none => some ⟨[], 0, .done⟩
  | some _ => scrollLoop fieldName subfield includeId resp fuel 0

/-- Result of a run of `random_elastic_query`: tuples yielded, number of
search queries issued, logged-failure counter, termination status. -/
structure RandOut where
  tuples : List ElTup
  searches : Nat
  errorPrints : Nat
  status : TermStatus
deriving DecidableEq

/-- The `while sampled < n_samples` loop of `random_elastic_query`.
`responses i` is the store's hit page for the `i`-th search issued (each
search is an independent match-all query at a fresh random offset, with
no cursor reuse).  `sampled` advances by one per yielded tuple; `none`
means the fuel ran out with the loop still running. -/
def randLoop (fieldName : String) (subfield : Option String) (includeId : Bool)
    (nSamples : Nat) (responses : Nat → List Hit) :
    Nat → Nat → Nat → Nat → Option RandOut
  | fuel + 1, batchIdx, sampled, errs =>
    if sampled < nSamples then
      let p := processHits fieldName subfield includeId (responses batchIdx) errs
      if p.status = .fatal then some ⟨p.tuples, 1, p.errorPrints, .fatal⟩
      else
        match randLoop fieldName subfield includeId nSamples responses fuel
            (batchIdx + 1) (sampled + p.tuples.length) p.errorPrints with
        | none => none
        | some q => some ⟨p.tuples ++ q.tuples, q.searches + 1, q.errorPrints, q.status⟩
    else some ⟨[], 0, errs, .done⟩
  | 0, _, sampled, errs =>
    if sampled < nSamples then none else some ⟨[], 0, errs, .done⟩

/-- The random-sample reader `random_elastic_query`.  The separately
fetched document count and the per-batch `randint` offsets only shape
the queries sent to the store (`from_ = r`, `size = siz`; the `r < 0`
clamping branch is dead code, since `randint(0, count)` is never
negative, so `siz` is always `batch_size`), and the store's replies are
abstracted as the `responses` oracle.  `batch_size` bounds each page's
length through the store's contract, which theorems state as a
hypothesis on `responses` where they need it. -/
def random_elastic_query (fieldName : String) (subfield : Option String)
    (includeId : Bool) (batchSize nSamples : Nat) (responses : Nat → List Hit)
    (fuel : Nat) : Option RandOut :=
  randLoop fieldName subfield includeId nSamples responses fuel 0 0 0

/-! ### The source resolver (`read_input`) -/

def startsWithChars : List Char → List Char → Bool
  | [], _ => true
  | _ :: _, [] => false
  | p :: ps, c :: cs => p = c && startsWithChars ps cs

def containsChars (pat : List Char) : List Char → Bool
  | [] => startsWithChars pat []
  | c :: cs => startsWithChars pat (c :: cs) || containsChars pat cs

/-- Python's substring test `sub in s`. -/
def strContains (s sub : String) : Bool :=
  containsChars sub.data s.data

/-- Index of the last occurrence of `ch` in the list, Python's
`str.rfind` (with `none` for "not found"). -/
def lastIdxOf (ch : Char) : List Char → Option Nat
  | [] => none
  | c :: cs =>
    match lastIdxOf ch cs with
    | some i => some (i + 1)
    | none => if c = ch then some 0 else none

/-- The extension part of `os.path.splitext(s)` under POSIX rules: the
suffix from the last dot, provided that dot lies strictly after the last
slash and at least one earlier character of the base name is not itself
a dot (leading dots do not open an extension). -/
def splitextExt (s : String) : String :=
  match lastIdxOf '.' s.data with
  | none => ""
  | some d =>
    let fstart : Nat :=
      match lastIdxOf '/' s.data with
      | none => 0
      | some sp => sp + 1
    if fstart ≤ d ∧ ((s.data.drop fstart).take (d - fstart)).any (fun c => c ≠ '.') = true
    then String.mk (s.data.drop d)
    else ""

/-- Python exceptions that can escape the dispatch path modelled here.
`read_input`'s own "Unrecognized source type" failure is a `ValueError`,
the same class its fallback clause catches from the probe. -/
inductive PyExn where
  | valueError : PyExn
  | attributeError : PyExn
  | stopIteration : PyExn
deriving DecidableEq

/-- The dispatch probe `next(itertools.tee(data_iterator)[0])`: pull one
element from the freshly constructed JSON-lines generator.  It returns
the first record the generator yields; if the generator dies before its
first yield the exception propagates (`AttributeError` from a non-object
line), and if it finishes without yielding, `next` raises
`StopIteration`. -/
def probeFirst (o : StreamOut) : Except PyExn (String × Option Json) :=
  match o.records with
  | r :: _ => .ok r
  | [] =>
    match o.status with
    | .fatal => .error .attributeError
    | .done => .error .stopIteration

/-- Modelled from the spec: the reader registry
`topik/fileio/_registry.py` (the `registered_inputs` dictionary) is not
among the sources at hand; per the resolver contract of the spec its
entries `read_solr`, `read_elastic`, `read_json_stream`,
`read_large_json` and `read_document_folder` are the Solr, Elasticsearch,
JSON-lines, large-JSON and folder readers.  Only the JSON-lines reader
takes part in the dispatch logic itself (through the probe), so the
sequence it returns is carried in the result; the other readers stay
opaque tags. -/
inductive DataIterator where
  | readSolr : DataIterator
  | readElastic : DataIterator
  | jsonStream (out : StreamOut) : DataIterator
  | readLargeJson : DataIterator
  | readFolder : DataIterator
deriving DecidableEq

deriving instance DecidableEq for Except

/-- The resolver `read_input(source, source_type, content_field, ...)`
of `topik/fileio/reader.py`.  `file` is the parse-outcome list of the
source when read as JSON-lines (it only matters on the `.js`/`.json`
probing branch); `contentField` stands for the field selection the
JSON-lines reader receives through `**kwargs`.  On that branch the code
constructs the JSON-lines reader, probes one element through
`itertools.tee`, catches only `ValueError` (falling back to the
large-JSON reader), and on success reconstructs a fresh reader so the
caller's sequence starts at document 0. -/
def read_input (source sourceType contentField : String) (file : List LineParse) :
    Except PyExn DataIterator :=
  if (sourceType = "auto" ∧ strContains source "8983" = true) ∨ sourceType = "solr" then
    .ok .readSolr
  else if (sourceType = "auto" ∧ strContains source "9200" = true) ∨ sourceType = "elastic" then
    .ok .readElastic
  else if (sourceType = "auto" ∧ (splitextExt source = ".js" ∨ splitextExt source = ".json"))
      ∨ sourceType = "json_stream" then
    match probeFirst (iter_document_json_stream source contentField file) with
    | .ok _ => .ok (.jsonStream (iter_document_json_stream source contentField file))
    | .error .valueError => .ok .readLargeJson
    | .error e => .error e
  else if sourceType = "large_json" then
    .ok .readLargeJson
  else if (sourceType = "auto" ∧ splitextExt source = "") ∨ sourceType = "folder" then
    .ok .readFolder
  else
    .error .valueError

/-! ### Concrete inputs used by counterexamples and witnesses -/

/-- A store response carrying a scroll cursor and one extractable hit. -/
def respStuck : EsResponse :=
  ⟨some "scroll-1", [⟨"1", jObj [("text", .str "hello")]⟩]⟩

/-- The same page with the cursor absent. -/
def respNoCursor : EsResponse :=
  ⟨none, [⟨"1", jObj [("text", .str "hello")]⟩]⟩

/-- A one-line JSON-lines file whose single object carries the field. -/
def exFileA : List LineParse := [.ok (jObj [("text", .str "a")])]

/-- A two-line well-formed JSON-lines file; its second object lacks the
requested field. -/
def exFileB : List LineParse :=
  [.ok (jObj [("text", .str "a")]), .ok (jObj [("topic", .str "b")])]

/-- A one-line file whose object carries the field, with value "b". -/
def exFileC : List LineParse := [.ok (jObj [("text", .str "b")])]

/-- A response whose second hit's source is not an object: the first hit
is yielded, then extracting the second dies with a `TypeError`. -/
def exRespFatal : EsResponse :=
  ⟨some "scroll-1", [⟨"1", jObj [("text", .str "hello")]⟩, ⟨"2", .num 3⟩]⟩

/-- A hit page of two extractable documents. -/
def exHits : List Hit :=
  [⟨"1", jObj [("text", .str "a")]⟩, ⟨"2", jObj [("text", .str "b")]⟩]

/-- A store that answers every random-sample search with `exHits`. -/
def exResponses : Nat → List Hit := fun _ => exHits

/-- The outcome of `random_elastic_query` over `exResponses` with
`batch_size = 2` and `n_samples = 3`: two searches, four tuples. -/
def exRandOut : RandOut :=
  ⟨[(none, "text", .str "a"), (none, "text", .str "b"),
    (none, "text", .str "a"), (none, "text", .str "b")], 2, 0, .done⟩

/-! ## Theorems

Decimal rendering, first: the characterisation of `Nat.repr` through
`decChars` and its injectivity, feeding the identifier-uniqueness
proofs. -/

theorem decChars_zero : decChars 0 = [] := by
  rw [decChars]
  rfl

theorem decChars_pos (n : Nat) (h : n ≠ 0) :
    decChars n = decChars (n / 10) ++ [Nat.digitChar (n % 10)] := by
  rw [decChars]
  simp [h]

theorem decChars_eq_nil_iff (n : Nat) : decChars n = [] ↔ n = 0 := by
  constructor
  · intro h
    by_contra hn
    rw [decChars_pos n hn] at h
    simp at h
  · intro h
    subst h
    exact decChars_zero

theorem digitChar_inj_of_lt (a b : Nat) (ha : a < 10) (hb : b < 10)
    (h : Nat.digitChar a = Nat.digitChar b) : a = b := by
  have key : ∀ x y : Fin 10, Nat.digitChar x.val = Nat.digitChar y.val → x = y := by decide
  exact congrArg Fin.val (key ⟨a, ha⟩ ⟨b, hb⟩ h)

theorem decChars_injective : ∀ a b : Nat, decChars a = decChars b → a = b := by
  intro a
  induction a using Nat.strong_induction_on with
  | _ a ih =>
    intro b h
    by_cases ha : a = 0
    · subst ha
      rw [decChars_zero, eq_comm, decChars_eq_nil_iff] at h
      exact h.symm
    · by_cases hb : b = 0
      · subst hb
        rw [decChars_zero, decChars_eq_nil_iff] at h
        exact h
      · rw [decChars_pos a ha, decChars_pos b hb] at h
        obtain ⟨h1, h2⟩ := List.append_inj' h (by simp)
        have hmod : a % 10 = b % 10 := by
          apply digitChar_inj_of_lt _ _ (Nat.mod_lt _ (by decide)) (Nat.mod_lt _ (by decide))
          injection h2
        have hdiv : a / 10 = b / 10 :=
          ih (a / 10) (Nat.div_lt_self (Nat.pos_of_ne_zero ha) (by decide)) (b / 10) h1
        omega

theorem toDigitsCore_of_lt :
    ∀ (fuel n : Nat) (ds : List Char), n < fuel →
      Nat.toDigitsCore 10 fuel n ds = (if n = 0 then ['0'] else decChars n) ++ ds := by
  intro fuel
  induction fuel with
  | zero =>
    intro n ds h
    exact absurd h (Nat.not_lt_zero n)
  | succ f ih =>
    intro n ds h
    simp only [Nat.toDigitsCore]
    by_cases hq : n / 10 = 0
    · rw [if_pos hq]
      by_cases hn : n = 0
      · subst hn
        rfl
      · rw [if_neg hn, decChars_pos n hn, hq, decChars_zero]
        simp
    · rw [if_neg hq]
      have hn : n ≠ 0 := by
        intro h0
        subst h0
        exact hq (Nat.zero_div 10)
      have hlt : n / 10 < f := by
        have := Nat.div_lt_self (Nat.pos_of_ne_zero hn) (by decide : 1 < 10)
        omega
      rw [ih (n / 10) _ hlt, if_neg hq, if_neg hn, decChars_pos n hn, List.append_assoc]
      rfl

theorem repr_data_eq (n : Nat) :
    (Nat.repr n).data = if n = 0 then ['0'] else decChars n := by
  show (Nat.toDigits 10 n).asString.data = _
  rw [Nat.toDigits, toDigitsCore_of_lt (n + 1) n [] (Nat.lt_succ_self n), List.append_nil]
  rfl

theorem repr_injective : ∀ a b : Nat, Nat.repr a = Nat.repr b → a = b := by
  intro a b h
  have hd : (Nat.repr a).data = (Nat.repr b).data := congrArg String.data h
  rw [repr_data_eq, repr_data_eq] at hd
  by_cases ha : a = 0 <;> by_cases hb : b = 0
  · omega
  · exfalso
    rw [if_pos ha, if_neg hb, decChars_pos b hb] at hd
    have : ([] : List Char) ++ ['0'] = decChars (b / 10) ++ [Nat.digitChar (b % 10)] := by
      simpa using hd
    obtain ⟨h1, h2⟩ := List.append_inj' this (by simp)
    have hb10 : b / 10 = 0 := (decChars_eq_nil_iff _).mp h1.symm
    have h3 : ('0' : Char) = Nat.digitChar (b % 10) := by simpa using h2
    have hbm : b % 10 = 0 :=
      digitChar_inj_of_lt _ _ (Nat.mod_lt _ (by decide)) (by decide) h3.symm
    omega
  · exfalso
    rw [if_neg ha, if_pos hb, decChars_pos a ha] at hd
    have : decChars (a / 10) ++ [Nat.digitChar (a % 10)] = ([] : List Char) ++ ['0'] := by
      simpa using hd
    obtain ⟨h1, h2⟩ := List.append_inj' this (by simp)
    have ha10 : a / 10 = 0 := (decChars_eq_nil_iff _).mp h1
    have h3 : Nat.digitChar (a % 10) = '0' := by simpa using h2
    have ham : a % 10 = 0 :=
      digitChar_inj_of_lt _ _ (Nat.mod_lt _ (by decide)) (by decide) h3
    omega
  · rw [if_neg ha, if_neg hb] at hd
    exact decChars_injective a b hd

theorem mkStreamId_inj (filename fieldName : String) {a b : Nat}
    (h : mkStreamId filename fieldName a = mkStreamId filename fieldName b) : a = b := by
  have hd := congrArg String.data h
  simp only [mkStreamId, String.data_append, List.append_assoc] at hd
  have h1 := List.append_cancel_left hd
  have h2 := List.append_cancel_left h1
  have h3 := List.append_cancel_left h2
  have h4 := List.append_cancel_left h3
  exact repr_injective a b (String.ext (List.append_cancel_right h4))

/-! ### The JSON-lines reader: structure of a run -/

theorem jsonStreamFrom_nil (fn fld : String) (n : Nat) :
    jsonStreamFrom fn fld n [] = ⟨[], 0, .done⟩ := rfl

theorem jsonStreamFrom_fail_records (fn fld : String) (n : Nat) (rest : List LineParse) :
    (jsonStreamFrom fn fld n (.fail :: rest)).records
      = (jsonStreamFrom fn fld (n + 1) rest).records := rfl

theorem jsonStreamFrom_fail_warnings (fn fld : String) (n : Nat) (rest : List LineParse) :
    (jsonStreamFrom fn fld n (.fail :: rest)).warnings
      = (jsonStreamFrom fn fld (n + 1) rest).warnings + 1 := rfl

theorem jsonStreamFrom_fail_status (fn fld : String) (n : Nat) (rest : List LineParse) :
    (jsonStreamFrom fn fld n (.fail :: rest)).status
      = (jsonStreamFrom fn fld (n + 1) rest).status := rfl

theorem jsonStreamFrom_obj_records (fn fld : String) (n : Nat) (fields : JsonObj)
    (rest : List LineParse) :
    (jsonStreamFrom fn fld n (.ok (.obj fields) :: rest)).records
      = (mkStreamId fn fld n, fields.get? fld)
          :: (jsonStreamFrom fn fld (n + 1) rest).records := rfl

theorem jsonStreamFrom_obj_warnings (fn fld : String) (n : Nat) (fields : JsonObj)
    (rest : List LineParse) :
    (jsonStreamFrom fn fld n (.ok (.obj fields) :: rest)).warnings
      = (jsonStreamFrom fn fld (n + 1) rest).warnings := rfl

theorem jsonStreamFrom_obj_status (fn fld : String) (n : Nat) (fields : JsonObj)
    (rest : List LineParse) :
    (jsonStreamFrom fn fld n (.ok (.obj fields) :: rest)).status
      = (jsonStreamFrom fn fld (n + 1) rest).status := rfl

theorem jsonStreamFrom_append_allObj (fn fld : String) :
    ∀ (chunk rest : List LineParse) (n : Nat),
      (∀ l ∈ chunk, ∃ fields, l = LineParse.ok (Json.obj fields)) →
      (jsonStreamFrom fn fld n (chunk ++ rest)).status
          = (jsonStreamFrom fn fld (n + chunk.length) rest).status ∧
      (jsonStreamFrom fn fld n (chunk ++ rest)).warnings
          = (jsonStreamFrom fn fld (n + chunk.length) rest).warnings ∧
      (jsonStreamFrom fn fld n (chunk ++ rest)).records.map Prod.fst
          = (List.range' n chunk.length).map (mkStreamId fn fld)
            ++ (jsonStreamFrom fn fld (n + chunk.length) rest).records.map Prod.fst := by
  intro chunk
  induction chunk with
  | nil =>
    intro rest n _
    simp
  | cons l chunk ih =>
    intro rest n h
    obtain ⟨fields, rfl⟩ := h l (List.mem_cons_self l chunk)
    obtain ⟨h1, h2, h3⟩ := ih rest (n + 1) (fun x hx => h x (List.mem_cons_of_mem _ hx))
    simp only [List.length_cons, List.cons_append]
    have hn : n + (chunk.length + 1) = n + 1 + chunk.length := by omega
    rw [hn]
    refine ⟨?_, ?_, ?_⟩
    · rw [jsonStreamFrom_obj_status, h1]
    · rw [jsonStreamFrom_obj_warnings, h2]
    · rw [jsonStreamFrom_obj_records, List.map_cons, h3, List.range'_succ, List.map_cons,
        List.cons_append]

theorem jsonStreamFrom_allObj (fn fld : String) (file : List LineParse) (n : Nat)
    (h : ∀ l ∈ file, ∃ fields, l = LineParse.ok (Json.obj fields)) :
    (jsonStreamFrom fn fld n file).status = .done ∧
    (jsonStreamFrom fn fld n file).warnings = 0 ∧
    (jsonStreamFrom fn fld n file).records.map Prod.fst
      = (List.range' n file.length).map (mkStreamId fn fld) := by
  have := jsonStreamFrom_append_allObj fn fld file [] n h
  simpa [jsonStreamFrom_nil] using this

theorem jsonStream_id_mem (fn fld : String) :
    ∀ (file : List LineParse) (n : Nat) (s : String),
      s ∈ (jsonStreamFrom fn fld n file).records.map Prod.fst →
      ∃ k, n ≤ k ∧ s = mkStreamId fn fld k := by
  intro file
  induction file with
  | nil =>
    intro n s h
    exact absurd h (List.not_mem_nil s)
  | cons l rest ih =>
    intro n s h
    cases l with
    | fail =>
      obtain ⟨k, hk, rfl⟩ := ih (n + 1) s h
      exact ⟨k, by omega, rfl⟩
    | ok j =>
      cases j with
      | obj fields =>
        rw [jsonStreamFrom_obj_records, List.map_cons] at h
        rcases List.mem_cons.mp h with rfl | h
        · exact ⟨n, le_rfl, rfl⟩
        · obtain ⟨k, hk, rfl⟩ := ih (n + 1) s h
          exact ⟨k, by omega, rfl⟩
      | null => exact absurd h (List.not_mem_nil s)
      | bool b => exact absurd h (List.not_mem_nil s)
      | num m => exact absurd h (List.not_mem_nil s)
      | str t => exact absurd h (List.not_mem_nil s)
      | arr es => exact absurd h (List.not_mem_nil s)

theorem jsonStream_ids_nodup (fn fld : String) :
    ∀ (file : List LineParse) (n : Nat),
      ((jsonStreamFrom fn fld n file).records.map Prod.fst).Nodup := by
  intro file
  induction file with
  | nil => intro n; exact List.nodup_nil
  | cons l rest ih =>
    intro n
    cases l with
    | fail => exact ih (n + 1)
    | ok j =>
      cases j with
      | obj fields =>
        rw [jsonStreamFrom_obj_records, List.map_cons]
        refine List.nodup_cons.mpr ⟨?_, ih (n + 1)⟩
        intro hmem
        obtain ⟨k, hk, he⟩ := jsonStream_id_mem fn fld rest (n + 1) _ hmem
        exact absurd (mkStreamId_inj fn fld he) (by omega)
      | null => exact List.nodup_nil
      | bool b => exact List.nodup_nil
      | num m => exact List.nodup_nil
      | str t => exact List.nodup_nil
      | arr es => exact List.nodup_nil

/-! ### The query readers: structure of a run -/

theorem extractHit_label {fieldName : String} {subfield : Option String} {includeId : Bool}
    {h : Hit} {t : ElTup} (he : extractHit fieldName subfield includeId h = .yielded t) :
    t.2.1 = elasticLabel fieldName subfield := by
  cases subfield with
  | none =>
    cases h1 : indexJson h.src fieldName with
    | found v =>
      simp only [extractHit, h1] at he
      injection he with h2
      rw [← h2]
    | keyError =>
      simp only [extractHit, h1] at he
      exact ExtractOut.noConfusion he
    | typeError =>
      simp only [extractHit, h1] at he
      exact ExtractOut.noConfusion he
  | some sub =>
    cases h1 : indexJson h.src fieldName with
    | found v =>
      cases h2 : indexJson v sub with
      | found w =>
        simp only [extractHit, h1, h2] at he
        injection he with h3
        rw [← h3]
      | keyError =>
        simp only [extractHit, h1, h2] at he
        exact ExtractOut.noConfusion he
      | typeError =>
        simp only [extractHit, h1, h2] at he
        exact ExtractOut.noConfusion he
    | keyError =>
      simp only [extractHit, h1] at he
      exact ExtractOut.noConfusion he
    | typeError =>
      simp only [extractHit, h1] at he
      exact ExtractOut.noConfusion he

theorem processHits_nil (fieldName : String) (subfield : Option String) (includeId : Bool)
    (errs : Nat) : processHits fieldName subfield includeId [] errs = ⟨[], errs, .done⟩ := rfl

theorem processHits_yielded (fieldName : String) (subfield : Option String) (includeId : Bool)
    (h : Hit) (rest : List Hit) (errs : Nat) (t0 : ElTup)
    (he : extractHit fieldName subfield includeId h = .yielded t0) :
    processHits fieldName subfield includeId (h :: rest) errs
      = ⟨t0 :: (processHits fieldName subfield includeId rest errs).tuples,
         (processHits fieldName subfield includeId rest errs).errorPrints,
         (processHits fieldName subfield includeId rest errs).status⟩ := by
  simp only [processHits, he]

theorem processHits_skipped (fieldName : String) (subfield : Option String) (includeId : Bool)
    (h : Hit) (rest : List Hit) (errs : Nat)
    (he : extractHit fieldName subfield includeId h = .skipped) :
    processHits fieldName subfield includeId (h :: rest) errs
      = processHits fieldName subfield includeId rest (if errs < 10 then errs + 1 else errs) := by
  simp only [processHits, he]

theorem processHits_fatal (fieldName : String) (subfield : Option String) (includeId : Bool)
    (h : Hit) (rest : List Hit) (errs : Nat)
    (he : extractHit fieldName subfield includeId h = .fatal) :
    processHits fieldName subfield includeId (h :: rest) errs = ⟨[], errs, .fatal⟩ := by
  simp only [processHits, he]

theorem processHits_labels (fieldName : String) (subfield : Option String) (includeId : Bool) :
    ∀ (hits : List Hit) (errs : Nat) (t : ElTup),
      t ∈ (processHits fieldName subfield includeId hits errs).tuples →
      t.2.1 = elasticLabel fieldName subfield := by
  intro hits
  induction hits with
  | nil =>
    intro errs t ht
    exact absurd ht (List.not_mem_nil t)
  | cons h rest ih =>
    intro errs t ht
    cases he : extractHit fieldName subfield includeId h with
    | yielded t0 =>
      rw [processHits_yielded fieldName subfield includeId h rest errs t0 he] at ht
      rcases List.mem_cons.mp ht with rfl | ht'
      · exact extractHit_label he
      · exact ih errs t ht'
    | skipped =>
      rw [processHits_skipped fieldName subfield includeId h rest errs he] at ht
      exact ih _ t ht
    | fatal =>
      rw [processHits_fatal fieldName subfield includeId h rest errs he] at ht
      exact absurd ht (List.not_mem_nil t)

theorem processHits_tuples_le (fieldName : String) (subfield : Option String) (includeId : Bool) :
    ∀ (hits : List Hit) (errs : Nat),
      (processHits fieldName subfield includeId hits errs).tuples.length ≤ hits.length := by
  intro hits
  induction hits with
  | nil =>
    intro errs
    exact Nat.le_refl 0
  | cons h rest ih =>
    intro errs
    cases he : extractHit fieldName subfield includeId h with
    | yielded t0 =>
      rw [processHits_yielded fieldName subfield includeId h rest errs t0 he]
      show ((t0 :: (processHits fieldName subfield includeId rest errs).tuples)).length
          ≤ rest.length + 1
      rw [List.length_cons]
      exact Nat.succ_le_succ (ih errs)
    | skipped =>
      rw [processHits_skipped fieldName subfield includeId h rest errs he]
      exact le_trans (ih _) (by rw [List.length_cons]; omega)
    | fatal =>
      rw [processHits_fatal fieldName subfield includeId h rest errs he]
      exact Nat.zero_le _

theorem scrollLoop_stuck (fieldName : String) (subfield : Option String) (includeId : Bool)
    (resp : EsResponse) (hs : resp.scrollId ≠ none) (hh : resp.hits ≠ [])
    (hnf : ∀ errs, (processHits fieldName subfield includeId resp.hits errs).status ≠ .fatal) :
    ∀ (fuel errs : Nat), scrollLoop fieldName subfield includeId resp fuel errs = none := by
  intro fuel
  induction fuel with
  | zero =>
    intro errs
    rfl
  | succ f ih =>
    intro errs
    simp only [scrollLoop]
    rw [if_neg (hnf errs), if_neg (not_or.mpr ⟨hs, hh⟩), ih]

theorem scrollLoop_labels (fieldName : String) (subfield : Option String) (includeId : Bool)
    (resp : EsResponse) :
    ∀ (fuel errs : Nat) (out : PageOut),
      scrollLoop fieldName subfield includeId resp fuel errs = some out →
      ∀ t ∈ out.tuples, t.2.1 = elasticLabel fieldName subfield := by
  intro fuel
  induction fuel with
  | zero =>
    intro errs out h
    exact Option.noConfusion h
  | succ f ih =>
    intro errs out h
    simp only [scrollLoop] at h
    set p := processHits fieldName subfield includeId resp.hits errs with hp
    by_cases hfat : p.status = .fatal
    · rw [if_pos hfat] at h
      injection h with h2
      subst h2
      intro t ht
      exact processHits_labels fieldName subfield includeId resp.hits errs t (hp ▸ ht)
    · rw [if_neg hfat] at h
      by_cases hbrk : resp.scrollId = none ∨ resp.hits = []
      · rw [if_pos hbrk] at h
        injection h with h2
        subst h2
        intro t ht
        exact processHits_labels fieldName subfield includeId resp.hits errs t (hp ▸ ht)
      · rw [if_neg hbrk] at h
        cases hrec : scrollLoop fieldName subfield includeId resp f p.errorPrints with
        | none =>
          rw [hrec] at h
          exact Option.noConfusion h
        | some q =>
          rw [hrec] at h
          injection h with h2
          subst h2
          intro t ht
          have ht' : t ∈ p.tuples ++ q.tuples := ht
          rcases List.mem_append.mp ht' with h3 | h3
          · exact processHits_labels fieldName subfield includeId resp.hits errs t (hp ▸ h3)
          · exact ih p.errorPrints q hrec t h3

theorem iter_elastic_labels (fieldName : String) (subfield : Option String) (includeId : Bool)
    (resp : EsResponse) (fuel : Nat) (out : PageOut)
    (h : iter_elastic_query fieldName subfield includeId resp fuel = some out) :
    ∀ t ∈ out.tuples, t.2.1 = elasticLabel fieldName subfield := by
  unfold iter_elastic_query at h
  cases hs : resp.scrollId with
  | none =>
    rw [hs] at h
    injection h with h2
    subst h2
    intro t ht
    exact absurd ht (List.not_mem_nil t)
  | some sid =>
    rw [hs] at h
    exact scrollLoop_labels fieldName subfield includeId resp fuel 0 out h

theorem iter_large_json_id_const (events : List (String × String × Json))
    (prefixValue eventValue : String) :
    ∀ r ∈ iter_large_json events prefixValue eventValue,
      r.1 = prefixValue ++ "/" ++ eventValue := by
  induction events with
  | nil =>
    intro r hr
    exact absurd hr (List.not_mem_nil r)
  | cons ev rest ih =>
    obtain ⟨p, e, v⟩ := ev
    intro r hr
    by_cases hc : p = prefixValue ∧ e = eventValue
    · rw [show iter_large_json ((p, e, v) :: rest) prefixValue eventValue
          = (p ++ "/" ++ e, v) :: iter_large_json rest prefixValue eventValue from by
            simp [iter_large_json, hc]] at hr
      rcases List.mem_cons.mp hr with rfl | hr'
      · rw [hc.1, hc.2]
      · exact ih r hr'
    · rw [show iter_large_json ((p, e, v) :: rest) prefixValue eventValue
          = iter_large_json rest prefixValue eventValue from by
            simp [iter_large_json, hc]] at hr
      exact ih r hr

theorem randLoop_bounds (fieldName : String) (subfield : Option String) (includeId : Bool)
    (nSamples batchSize : Nat) (responses : Nat → List Hit)
    (hsize : ∀ i, (responses i).length ≤ batchSize) :
    ∀ (fuel batchIdx sampled errs : Nat) (out : RandOut),
      randLoop fieldName subfield includeId nSamples responses fuel batchIdx sampled errs
        = some out →
      (out.status = .done →
        nSamples ≤ sampled + out.tuples.length ∧
        nSamples ≤ sampled + out.searches * batchSize) ∧
      sampled + out.tuples.length ≤ max sampled (nSamples + batchSize - 1) := by
  intro fuel
  induction fuel with
  | zero =>
    intro batchIdx sampled errs out h
    simp only [randLoop] at h
    by_cases hcond : sampled < nSamples
    · rw [if_pos hcond] at h
      exact Option.noConfusion h
    · rw [if_neg hcond] at h
      injection h with h2
      subst h2
      refine ⟨fun _ => ⟨?_, ?_⟩, ?_⟩
      · show nSamples ≤ sampled + ([] : List ElTup).length
        simp only [List.length_nil]
        omega
      · show nSamples ≤ sampled + 0 * batchSize
        simp only [Nat.zero_mul]
        omega
      · show sampled + ([] : List ElTup).length ≤ max sampled (nSamples + batchSize - 1)
        simp only [List.length_nil, Nat.add_zero]
        exact Nat.le_max_left _ _
  | succ f ih =>
    intro batchIdx sampled errs out h
    simp only [randLoop] at h
    by_cases hcond : sampled < nSamples
    · rw [if_pos hcond] at h
      set p := processHits fieldName subfield includeId (responses batchIdx) errs with hp
      have hplen : p.tuples.length ≤ batchSize := by
        rw [hp]
        exact le_trans (processHits_tuples_le fieldName subfield includeId _ errs)
          (hsize batchIdx)
      by_cases hfat : p.status = .fatal
      · rw [if_pos hfat] at h
        injection h with h2
        subst h2
        refine ⟨fun hdone => ?_, ?_⟩
        · exact absurd hdone (by simp)
        · show sampled + p.tuples.length ≤ max sampled (nSamples + batchSize - 1)
          have hb : sampled + p.tuples.length ≤ nSamples + batchSize - 1 := by omega
          exact le_trans hb (Nat.le_max_right _ _)
      · rw [if_neg hfat] at h
        cases hrec : randLoop fieldName subfield includeId nSamples responses f (batchIdx + 1)
            (sampled + p.tuples.length) p.errorPrints with
        | none =>
          rw [hrec] at h
          exact Option.noConfusion h
        | some q =>
          rw [hrec] at h
          injection h with h2
          subst h2
          obtain ⟨hq1, hq2⟩ := ih (batchIdx + 1) (sampled + p.tuples.length) p.errorPrints q hrec
          refine ⟨fun hdone => ?_, ?_⟩
          · have hqdone : q.status = .done := hdone
            obtain ⟨ha, hb⟩ := hq1 hqdone
            constructor
            · show nSamples ≤ sampled + (p.tuples ++ q.tuples).length
              rw [List.length_append]
              omega
            · show nSamples ≤ sampled + (q.searches + 1) * batchSize
              have hexp : (q.searches + 1) * batchSize = q.searches * batchSize + batchSize :=
                Nat.succ_mul _ _
              rw [hexp]
              omega
          · show sampled + (p.tuples ++ q.tuples).length ≤ max sampled (nSamples + batchSize - 1)
            have hPM : sampled + p.tuples.length ≤ nSamples + batchSize - 1 := by omega
            rw [Nat.max_eq_right hPM] at hq2
            rw [List.length_append]
            have hb : sampled + (p.tuples.length + q.tuples.length)
                ≤ nSamples + batchSize - 1 := by omega
            exact le_trans hb (Nat.le_max_right _ _)
    · rw [if_neg hcond] at h
      injection h with h2
      subst h2
      refine ⟨fun _ => ⟨?_, ?_⟩, ?_⟩
      · show nSamples ≤ sampled + ([] : List ElTup).length
        simp only [List.length_nil]
        omega
      · show nSamples ≤ sampled + 0 * batchSize
        simp only [Nat.zero_mul]
        omega
      · show sampled + ([] : List ElTup).length ≤ max sampled (nSamples + batchSize - 1)
        simp only [List.length_nil, Nat.add_zero]
        exact Nat.le_max_left _ _

/-! ### The source resolver: the fallback clause is dead code -/

theorem probeFirst_ne_valueError (o : StreamOut) : probeFirst o ≠ .error .valueError := by
  rcases o with ⟨records, warnings, status⟩
  cases records with
  | cons r rest => simp [probeFirst]
  | nil => cases status <;> simp [probeFirst]

/-- With `source_type = "auto"` the resolver can never return the
large-JSON reader: the only route there is the `except ValueError`
clause around the probe, and the probe never raises `ValueError`
because `iter_document_json_stream` swallows it line by line. -/
theorem read_input_auto_never_large_json (source fld : String) (file : List LineParse) :
    read_input source "auto" fld file ≠ .ok .readLargeJson := by
  unfold read_input
  split_ifs with hc1 hc2 hc3 hc4 hc5
  · simp
  · simp
  · cases hpr : probeFirst (iter_document_json_stream source fld file) with
    | ok r => simp
    | error e =>
      cases e with
      | valueError => exact absurd hpr (probeFirst_ne_valueError _)
      | attributeError => simp
      | stopIteration => simp
  · simp at hc4
  · simp
  · simp

/-! ### Claim theorems -/

/-- C1: the full-scroll reader is claimed to request successive pages
through the returned scroll cursor, ending exactly when the cursor is
absent or a page is empty.  The code never issues the continuation
request (`es.scroll` is missing), so on a first response carrying a
cursor and a non-empty page it loops forever over the same response —
for every fuel the loop is still running — while a first response
without a cursor does terminate at once with no records. -/
theorem elastic_scroll_never_requests_next_page :
    (∀ fuel, iter_elastic_query "text" none false respStuck fuel = none) ∧
    (∀ fuel, iter_elastic_query "text" none false respNoCursor fuel = some ⟨[], 0, .done⟩) := by
  constructor
  · intro fuel
    exact scrollLoop_stuck "text" none false respStuck (by decide) (by decide)
      (fun errs h => TermStatus.noConfusion h) fuel 0
  · intro fuel
    rfl

/-- C2 counterexample: two `ijson` events matching the requested
(prefix, event) pair make `iter_large_json` yield two records with the
same identifier, so identifiers are not unique within one iteration. -/
theorem large_json_identifiers_collide :
    ¬ ((iter_large_json
          [("item.content", "string", .str "a"), ("item.content", "string", .str "b")]
          "item.content" "string").map Prod.fst).Nodup := by decide

/-- C2 amended: identifier uniqueness holds for the JSON-lines reader,
whose identifiers embed the line number.  The large-JSON reader and the
full-scroll Elasticsearch reader instead give every record of one
iteration the same identifier (the `prefix/event` pair, resp. the field
or field/subfield label), so duplicates occur whenever more than one
record is yielded. -/
theorem reader_identifier_uniqueness :
    (∀ (fn fld : String) (file : List LineParse),
      ((iter_document_json_stream fn fld file).records.map Prod.fst).Nodup) ∧
    (∀ (events : List (String × String × Json)) (pv ev : String),
      ∀ r ∈ iter_large_json events pv ev, r.1 = pv ++ "/" ++ ev) ∧
    (∀ (fieldName : String) (subfield : Option String) (includeId : Bool)
        (resp : EsResponse) (fuel : Nat) (out : PageOut),
      iter_elastic_query fieldName subfield includeId resp fuel = some out →
      ∀ t ∈ out.tuples, t.2.1 = elasticLabel fieldName subfield) :=
  ⟨fun fn fld file => jsonStream_ids_nodup fn fld file 0,
   fun events pv ev => iter_large_json_id_const events pv ev,
   fun fieldName subfield includeId resp fuel out h =>
     iter_elastic_labels fieldName subfield includeId resp fuel out h⟩

theorem reader_identifier_uniqueness_witness :
    ((iter_document_json_stream "f.json" "text" exFileB).records.map Prod.fst).Nodup ∧
    ("item.content/string", Json.str "a").1 = "item.content" ++ "/" ++ "string" ∧
    ((none : Option String), "text", Json.str "hello").2.1 = elasticLabel "text" none := by
  refine ⟨reader_identifier_uniqueness.1 "f.json" "text" exFileB, ?_, ?_⟩
  · exact reader_identifier_uniqueness.2.1
      [("item.content", "string", .str "a")] "item.content" "string"
      ("item.content/string", Json.str "a") (by decide)
  · exact reader_identifier_uniqueness.2.2 "text" none false exRespFatal 1
      ⟨[((none : Option String), "text", Json.str "hello")], 0, .fatal⟩ (by decide)
      ((none : Option String), "text", Json.str "hello") (by decide)

/-- C3 counterexample: a line parsing to an object without the requested
field is still yielded — as a record whose content is `None` — rather
than dropped. -/
theorem json_stream_none_content_yielded :
    ("f.json/text[0]", (none : Option Json)) ∈
      (iter_document_json_stream "f.json" "text" [.ok (jObj [("topic", .str "x")])]).records := by
  decide

/-- C3 amended: only unparseable lines are dropped.  A line that parses
to an object lacking the requested field is not dropped: the reader
yields its record with content `dictionary.get(field)`, which is `None`
exactly when the field is absent. -/
theorem json_stream_yields_missing_field (fn fld : String) (fields : JsonObj)
    (rest : List LineParse) :
    (iter_document_json_stream fn fld (.ok (.obj fields) :: rest)).records.head?
      = some (mkStreamId fn fld 0, fields.get? fld) := rfl

/-- C4: a `.json` source holding a single pretty-printed JSON document —
every line fails `json.loads` — is claimed to make `read_input` fall
back to the large-JSON reader.  Instead the probe exhausts the
JSON-lines generator (which swallows every `ValueError`) and `next`
raises `StopIteration`, which nothing catches: `read_input` propagates
the exception and never reaches the fallback. -/
theorem read_input_large_json_probe_raises :
    read_input "doc.json" "auto" "text" [.fail, .fail] = .error .stopIteration := by decide

/-- C5: over a well-formed JSON-lines file — every line parses to an
object — the reader finishes, yields one record per line in file order,
and the record of line `i` carries identifier `"<path>/<field>[<i>]"`. -/
theorem json_stream_wellformed_run (fn fld : String) (file : List LineParse)
    (hwf : ∀ l ∈ file, ∃ fields, l = LineParse.ok (Json.obj fields)) :
    (iter_document_json_stream fn fld file).status = .done ∧
    (iter_document_json_stream fn fld file).records.length = file.length ∧
    (iter_document_json_stream fn fld file).records.map Prod.fst
      = (List.range file.length).map (mkStreamId fn fld) := by
  obtain ⟨h1, h2, h3⟩ := jsonStreamFrom_allObj fn fld file 0 hwf
  refine ⟨h1, ?_, ?_⟩
  · have hlen := congrArg List.length h3
    simpa using hlen
  · rw [List.range_eq_range']
    exact h3

theorem json_stream_wellformed_run_witness :
    (iter_document_json_stream "f.json" "text" exFileB).status = .done ∧
    (iter_document_json_stream "f.json" "text" exFileB).records.length = exFileB.length ∧
    (iter_document_json_stream "f.json" "text" exFileB).records.map Prod.fst
      = (List.range exFileB.length).map (mkStreamId "f.json" "text") :=
  json_stream_wellformed_run "f.json" "text" exFileB (by
    intro l hl
    simp only [exFileB, List.mem_cons, List.not_mem_nil, or_false] at hl
    rcases hl with rfl | rfl
    · exact ⟨_, rfl⟩
    · exact ⟨_, rfl⟩)

/-- C6 counterexample: the source `"x9200.json"` ends in `.json`, yet
auto-detection dispatches it to the Elasticsearch reader (the "9200"
rule is checked first), so the returned sequence is not the JSON-lines
sequence — whose first element exists — and in particular does not
share its first element. -/
theorem read_input_json_suffix_not_json_reader :
    read_input "x9200.json" "auto" "text" exFileA = .ok .readElastic ∧
    (iter_document_json_stream "x9200.json" "text" exFileA).records.head?
        = some ("x9200.json/text[0]", some (.str "a")) ∧
    read_input "x9200.json" "auto" "text" exFileA
        ≠ .ok (.jsonStream (iter_document_json_stream "x9200.json" "text" exFileA)) := by
  refine ⟨by decide, by decide, ?_⟩
  intro hc
  rw [show read_input "x9200.json" "auto" "text" exFileA = .ok .readElastic from by decide]
    at hc
  exact absurd hc (by decide)

/-- C6 amended: when auto-detection actually reaches the extension rule
(the source contains neither "8983" nor "9200" and its `splitext`
extension is `.json`) and the JSON-lines sequence is non-empty (so the
probe pulls a first element instead of raising), `read_input` returns
the freshly reconstructed JSON-lines sequence itself — hence the same
first element as calling the reader directly: document 0 is not
skipped. -/
theorem read_input_json_dispatch_keeps_first (source fld : String) (file : List LineParse)
    (h8983 : strContains source "8983" = false)
    (h9200 : strContains source "9200" = false)
    (hext : splitextExt source = ".json")
    (hne : (iter_document_json_stream source fld file).records ≠ []) :
    read_input source "auto" fld file
      = .ok (.jsonStream (iter_document_json_stream source fld file)) := by
  unfold read_input
  have hcond1 : ¬(("auto" = "auto" ∧ strContains source "8983" = true) ∨ "auto" = "solr") := by
    simp [h8983]
  have hcond2 : ¬(("auto" = "auto" ∧ strContains source "9200" = true) ∨ "auto" = "elastic") := by
    simp [h9200]
  have hcond3 : ("auto" = "auto" ∧ (splitextExt source = ".js" ∨ splitextExt source = ".json"))
      ∨ "auto" = "json_stream" := Or.inl ⟨rfl, Or.inr hext⟩
  rw [if_neg hcond1, if_neg hcond2, if_pos hcond3]
  cases hr : (iter_document_json_stream source fld file).records with
  | nil => exact absurd hr hne
  | cons r rest =>
    rw [show probeFirst (iter_document_json_stream source fld file) = .ok r from by
      unfold probeFirst
      rw [hr]]

theorem read_input_json_dispatch_keeps_first_witness :
    read_input "data.json" "auto" "text" exFileA
      = .ok (.jsonStream (iter_document_json_stream "data.json" "text" exFileA)) :=
  read_input_json_dispatch_keeps_first "data.json" "text" exFileA (by decide) (by decide)
    (by decide) (by decide)

/-- C7: a JSON-lines file whose only bad line (a `json.loads` failure)
sits between two well-formed chunks finishes the whole file, logs
exactly one warning, and yields exactly one record per good line, in
order, the identifiers keeping the original line numbers (the bad
line's index is skipped). -/
theorem json_stream_single_malformed_line (fn fld : String) (good1 good2 : List LineParse)
    (hg1 : ∀ l ∈ good1, ∃ fields, l = LineParse.ok (Json.obj fields))
    (hg2 : ∀ l ∈ good2, ∃ fields, l = LineParse.ok (Json.obj fields)) :
    (iter_document_json_stream fn fld (good1 ++ .fail :: good2)).status = .done ∧
    (iter_document_json_stream fn fld (good1 ++ .fail :: good2)).warnings = 1 ∧
    (iter_document_json_stream fn fld (good1 ++ .fail :: good2)).records.length
      = good1.length + good2.length ∧
    (iter_document_json_stream fn fld (good1 ++ .fail :: good2)).records.map Prod.fst
      = (List.range' 0 good1.length).map (mkStreamId fn fld)
        ++ (List.range' (good1.length + 1) good2.length).map (mkStreamId fn fld) := by
  obtain ⟨hs, hw, hr⟩ := jsonStreamFrom_append_allObj fn fld good1 (.fail :: good2) 0 hg1
  obtain ⟨hs2, hw2, hr2⟩ := jsonStreamFrom_allObj fn fld good2 (good1.length + 1) hg2
  rw [Nat.zero_add] at hs hw hr
  have hrec : (iter_document_json_stream fn fld (good1 ++ .fail :: good2)).records.map Prod.fst
      = (List.range' 0 good1.length).map (mkStreamId fn fld)
        ++ (List.range' (good1.length + 1) good2.length).map (mkStreamId fn fld) := by
    show (jsonStreamFrom fn fld 0 (good1 ++ .fail :: good2)).records.map Prod.fst = _
    rw [hr, jsonStreamFrom_fail_records, hr2]
  refine ⟨?_, ?_, ?_, hrec⟩
  · show (jsonStreamFrom fn fld 0 (good1 ++ .fail :: good2)).status = .done
    rw [hs, jsonStreamFrom_fail_status]
    exact hs2
  · show (jsonStreamFrom fn fld 0 (good1 ++ .fail :: good2)).warnings = 1
    rw [hw, jsonStreamFrom_fail_warnings, hw2]
  · have hlen := congrArg List.length hrec
    simpa using hlen

theorem json_stream_single_malformed_line_witness :
    (iter_document_json_stream "f.json" "text" (exFileA ++ .fail :: exFileC)).status = .done ∧
    (iter_document_json_stream "f.json" "text" (exFileA ++ .fail :: exFileC)).warnings = 1 ∧
    (iter_document_json_stream "f.json" "text" (exFileA ++ .fail :: exFileC)).records.length
      = exFileA.length + exFileC.length ∧
    (iter_document_json_stream "f.json" "text" (exFileA ++ .fail :: exFileC)).records.map Prod.fst
      = (List.range' 0 exFileA.length).map (mkStreamId "f.json" "text")
        ++ (List.range' (exFileA.length + 1) exFileC.length).map (mkStreamId "f.json" "text") :=
  json_stream_single_malformed_line "f.json" "text" exFileA exFileC
    (by
      intro l hl
      simp only [exFileA, List.mem_cons, List.not_mem_nil, or_false] at hl
      subst hl
      exact ⟨_, rfl⟩)
    (by
      intro l hl
      simp only [exFileC, List.mem_cons, List.not_mem_nil, or_false] at hl
      subst hl
      exact ⟨_, rfl⟩)

/-- C8: auto-detection checks its rules in a fixed order with the first
match winning — a source containing "9200" and not "8983" goes to the
Elasticsearch reader whatever its extension, `.json`-like suffixes
included. -/
theorem read_input_9200_dispatches_elastic (source fld : String) (file : List LineParse)
    (h9200 : strContains source "9200" = true)
    (h8983 : strContains source "8983" = false) :
    read_input source "auto" fld file = .ok .readElastic := by
  unfold read_input
  have hcond1 : ¬(("auto" = "auto" ∧ strContains source "8983" = true) ∨ "auto" = "solr") := by
    simp [h8983]
  rw [if_neg hcond1, if_pos (Or.inl ⟨rfl, h9200⟩)]

theorem read_input_9200_dispatches_elastic_witness :
    read_input "http://localhost:9200/idx.json" "auto" "text" exFileA = .ok .readElastic :=
  read_input_9200_dispatches_elastic "http://localhost:9200/idx.json" "text" exFileA
    (by decide) (by decide)

/-- C9: a completed random-sample run for `n_samples` tuples (each page
honouring `batch_size`, with `batch_size < n_samples`) has yielded at
least `n_samples` tuples and issued at least
`ceil(n_samples / batch_size)` independent search queries. -/
theorem random_query_lower_bounds (fieldName : String) (subfield : Option String)
    (includeId : Bool) (batchSize nSamples : Nat) (responses : Nat → List Hit)
    (fuel : Nat) (out : RandOut)
    (hlt : batchSize < nSamples)
    (hsize : ∀ i, (responses i).length ≤ batchSize)
    (hrun : random_elastic_query fieldName subfield includeId batchSize nSamples responses fuel
      = some out)
    (hdone : out.status = .done) :
    nSamples ≤ out.tuples.length ∧
    (nSamples + batchSize - 1) / batchSize ≤ out.searches := by
  obtain ⟨hd, _⟩ := randLoop_bounds fieldName subfield includeId nSamples batchSize responses
    hsize fuel 0 0 0 out hrun
  obtain ⟨h1, h2⟩ := hd hdone
  constructor
  · omega
  · rcases Nat.eq_zero_or_pos batchSize with hB | hB
    · subst hB
      simp
    · rw [Nat.div_le_iff_le_mul_add_pred hB, Nat.mul_comm]
      omega

theorem random_query_lower_bounds_witness :
    3 ≤ exRandOut.tuples.length ∧ (3 + 2 - 1) / 2 ≤ exRandOut.searches :=
  random_query_lower_bounds "text" none false 2 3 exResponses 5 exRandOut (by decide)
    (fun _ => Nat.le_refl 2) (by decide) rfl

/-- C10: the `sampled < n_samples` check runs only between batches and a
started batch is yielded to its end, so a completed run yields at most
`n_samples + batch_size - 1` tuples. -/
theorem random_query_upper_bound (fieldName : String) (subfield : Option String)
    (includeId : Bool) (batchSize nSamples : Nat) (responses : Nat → List Hit)
    (fuel : Nat) (out : RandOut)
    (hsize : ∀ i, (responses i).length ≤ batchSize)
    (hrun : random_elastic_query fieldName subfield includeId batchSize nSamples responses fuel
      = some out)
    (hdone : out.status = .done) :
    out.tuples.length ≤ nSamples + batchSize - 1 := by
  obtain ⟨_, hub⟩ := randLoop_bounds fieldName subfield includeId nSamples batchSize responses
    hsize fuel 0 0 0 out hrun
  rw [Nat.zero_add, Nat.zero_max] at hub
  exact hub

theorem random_query_upper_bound_witness :
    exRandOut.tuples.length ≤ 3 + 2 - 1 :=
  random_query_upper_bound "text" none false 2 3 exResponses 5 exRandOut
    (fun _ => Nat.le_refl 2) (by decide) rfl

end Topik
